import Mathlib

/-!
Verification of the Baselayer orchestration engine
(packages/baselayer/src/orchestration): configuration model, category
resolver (file handlers), adapter registry, file classification, the
format/lint execution pipeline, and the JSONC configuration loader.

Shallow embedding notes: asynchronous adapter invocations become pure
functions returning `Except` (a thrown exception is `.error`); the
filesystem, the git subprocess, glob expansion and the minimatch library
are passed in as explicit parameters; wall-clock `executionTime` is not
modelled.
-/

set_option maxRecDepth 4000

namespace Baselayer

/-! ## Configuration model (schemas/baselayer-config.ts, config-loader.ts)

`BaselayerConfig.features` and each flag are optional in the runtime
objects the orchestration functions receive (the code reads them with
`config.features?.flag`), so each flag is an `Option Bool`; `none`
models an absent key. -/

/-- A JavaScript JSON value as produced by `JSON.parse`.  Numbers keep
their source lexeme (no floating-point semantics is needed by any
claim); object fields keep all parsed key/value pairs in order. -/
inductive Json : Type
  | null
  | bool (b : Bool)
  | num (lexeme : String)
  | str (s : String)
  | arr (items : List Json)
  | obj (fields : List (String × Json))

/-- The feature-flag names of `FeaturesSchema` in schemas/baselayer-config.ts. -/
inductive Feature : Type
  | typescript
  | markdown
  | styles
  | json
  | commits
  | packages
  | testing
  | docs
  deriving DecidableEq, Repr, Fintype

/-- The `features` object: every flag may be absent (`none`). -/
structure FeaturesConfig : Type where
  typescript : Option Bool
  markdown : Option Bool
  styles : Option Bool
  json : Option Bool
  commits : Option Bool
  packages : Option Bool
  testing : Option Bool
  docs : Option Bool
  deriving DecidableEq, Repr

/-- Field access on the features object by flag name. -/
def FeaturesConfig.get : FeaturesConfig → Feature → Option Bool
  | f, .typescript => f.typescript
  | f, .markdown => f.markdown
  | f, .styles => f.styles
  | f, .json => f.json
  | f, .commits => f.commits
  | f, .packages => f.packages
  | f, .testing => f.testing
  | f, .docs => f.docs

/-- The `overrides` object of `OverridesSchema`: four optional
tool-specific override objects whose contents the core never inspects. -/
structure OverridesConfig : Type where
  biome : Option Json
  prettier : Option Json
  stylelint : Option Json
  markdownlint : Option Json

/-- The parts of `BaselayerConfig` the orchestration core reads
(`project`, `ignore`, `extends` and `presets` are validated by the
schema but never read by the orchestration functions). -/
structure BaselayerConfig : Type where
  features : Option FeaturesConfig
  overrides : Option OverridesConfig

/-- `config.features?.flag`: `none` when the features object or the flag
is absent. -/
def featureFlag (c : BaselayerConfig) (f : Feature) : Option Bool :=
  match c.features with
  | none => none
  | some fs => fs.get f

/-- JavaScript truthiness of an optional boolean: `undefined` and
`false` are falsy. -/
def truthy : Option Bool → Bool
  | some b => b
  | none => false

/-- A features object with every flag absent. -/
def emptyFeatures : FeaturesConfig :=
  { typescript := none, markdown := none, styles := none, json := none,
    commits := none, packages := none, testing := none, docs := none }

/-- Set one feature flag to an explicit boolean (used to model
re-enabling a category in a given configuration). -/
def FeaturesConfig.set : FeaturesConfig → Feature → Bool → FeaturesConfig
  | fs, .typescript, b => { fs with typescript := some b }
  | fs, .markdown, b => { fs with markdown := some b }
  | fs, .styles, b => { fs with styles := some b }
  | fs, .json, b => { fs with json := some b }
  | fs, .commits, b => { fs with commits := some b }
  | fs, .packages, b => { fs with packages := some b }
  | fs, .testing, b => { fs with testing := some b }
  | fs, .docs, b => { fs with docs := some b }

/-- Set one feature flag in a whole configuration; an absent features
object is created first. -/
def withFeature (c : BaselayerConfig) (f : Feature) (b : Bool) : BaselayerConfig :=
  { c with features := some ((c.features.getD emptyFeatures).set f b) }

/-! ## Category resolver (file-matcher.ts) -/

/-- The category keys of `BASE_FILE_HANDLERS` in file-matcher.ts. -/
inductive FileType : Type
  | typescript
  | json
  | yaml
  | css
  | markdown
  deriving DecidableEq, Repr, Fintype

/-- The fixed iteration order of categories: the insertion order of the
`BASE_FILE_HANDLERS` object literal, which `Object.entries` preserves. -/
def allFileTypes : List FileType :=
  [.typescript, .json, .yaml, .css, .markdown]

/-- A category→extensions record (`Record<FileType, readonly string[]>`). -/
structure Handlers : Type where
  typescript : List String
  json : List String
  yaml : List String
  css : List String
  markdown : List String
  deriving DecidableEq, Repr

/-- Look up one category's extension list. -/
def Handlers.get : Handlers → FileType → List String
  | h, .typescript => h.typescript
  | h, .json => h.json
  | h, .yaml => h.yaml
  | h, .css => h.css
  | h, .markdown => h.markdown

/-- `BASE_FILE_HANDLERS` from file-matcher.ts. -/
def BASE_FILE_HANDLERS : Handlers :=
  { typescript := [".ts", ".tsx", ".js", ".jsx"]
    json := [".json"]
    yaml := [".yaml", ".yml"]
    css := [".css", ".scss", ".sass", ".less"]
    markdown := [".md", ".mdx", ".mdc"] }

/-- `getFileHandlers` from file-matcher.ts: starts from the base map;
if `config.features?.styles` is falsy, appends the css extensions to the
json category and empties css; then likewise for markdown. -/
def getFileHandlers (config : BaselayerConfig) : Handlers :=
  let handlers := BASE_FILE_HANDLERS
  let handlers :=
    if truthy (featureFlag config .styles) then handlers
    else { handlers with json := handlers.json ++ handlers.css, css := [] }
  let handlers :=
    if truthy (featureFlag config .markdown) then handlers
    else { handlers with json := handlers.json ++ handlers.markdown, markdown := [] }
  handlers

/-- Closed form of the resolved handlers as a function of the two
relevant feature flags. -/
def resolvedHandlers (styles markdown : Bool) : Handlers :=
  { typescript := BASE_FILE_HANDLERS.typescript
    json := BASE_FILE_HANDLERS.json
      ++ (if styles then [] else BASE_FILE_HANDLERS.css)
      ++ (if markdown then [] else BASE_FILE_HANDLERS.markdown)
    yaml := BASE_FILE_HANDLERS.yaml
    css := if styles then BASE_FILE_HANDLERS.css else []
    markdown := if markdown then BASE_FILE_HANDLERS.markdown else [] }

/-! ## File classification (file-matcher.ts) -/

/-- Model of Node's `path.extname`: the substring of the basename from
its last dot to the end; empty when the basename has no dot, when its
only dot is its first character, or for the special names `.` and `..`. -/
def extname (p : String) : String :=
  let base := (p.data.reverse.takeWhile (fun c => c ≠ '/')).reverse
  if base = ['.'] ∨ base = ['.', '.'] then ""
  else
    let revBase := base.reverse
    match revBase.dropWhile (fun c => c ≠ '.') with
    | [] => ""
    | ['.'] => ""
    | _ => String.mk ('.' :: (revBase.takeWhile (fun c => c ≠ '.')).reverse)

/-- The first category, in `Object.entries` order, whose extension list
contains `ext` (the inner loop of `categorizeFiles` with its `break`). -/
def firstMatch (h : Handlers) (ext : String) : Option FileType :=
  allFileTypes.find? (fun t => (h.get t).contains ext)

/-- One iteration of the outer loop of `categorizeFiles`: push the file
onto the first matching category's list, or drop it. -/
def categorizeStep (h : Handlers) (acc : FileType → List String)
    (file : String) : FileType → List String :=
  match firstMatch h (extname file) with
  | none => acc
  | some t => fun u => if u = t then acc u ++ [file] else acc u

/-- `FileMatcher.categorizeFiles` for a given handlers record. -/
def categorizeFiles (files : List String) (h : Handlers) :
    FileType → List String :=
  files.foldl (categorizeStep h) (fun _ => [])

/-- `categorizeFiles(files, config)`: the config argument first updates
the handlers via `getFileHandlers`. -/
def categorizeFilesWithConfig (files : List String)
    (config : BaselayerConfig) : FileType → List String :=
  categorizeFiles files (getFileHandlers config)

/-! ## File discovery (file-matcher.ts)

`getStagedFiles` shells out to `git diff --cached --name-only`; the
subprocess outcome is passed in as an `Except` (an exception caught by
the `try`/`catch` is `.error`).  Glob expansion and the external
minimatch library are likewise parameters. -/

/-- `FileMatcher.getStagedFiles`: on any thrown error, or when the git
command produced anything on stderr, return the empty list; otherwise
split stdout into lines, drop empty lines and `node_modules/` paths. -/
def getStagedFiles (git : Except String (String × String)) : List String :=
  match git with
  | .error _ => []
  | .ok (stdout, stderr) =>
    if stderr ≠ "" then []
    else
      ((stdout.splitOn "\n").filter (fun s => s ≠ "")).filter
        (fun file => !(file.startsWith "node_modules/"))

/-- Deduplication via `[...new Set(allFiles)]`: keeps first occurrences
in order. -/
def dedupKeepFirst (l : List String) : List String :=
  l.foldl (fun acc f => if f ∈ acc then acc else acc ++ [f]) []

/-- `FileMatcher.findFiles`.  In staged mode the staged list is returned
as-is for an empty pattern list, otherwise filtered by minimatch; in
glob mode each pattern is expanded and the union deduplicated.  The
model returns a plain list: every failure path inside `getStagedFiles`
is caught there. -/
def findFiles (patterns : List String) (onlyStaged : Bool)
    (matchPat : String → String → Bool)
    (git : Except String (String × String))
    (globExpand : String → List String) : List String :=
  if onlyStaged then
    let stagedFiles := getStagedFiles git
    if patterns.length = 0 then stagedFiles
    else
      stagedFiles.filter (fun file =>
        patterns.any (fun pattern => matchPat file pattern))
  else
    dedupKeepFirst (patterns.map globExpand).flatten

/-! ## Adapter registry (adapter-registry.ts)

`configure` clears the adapter map and rebuilds it from the
configuration alone, so the state after `configure(config)` is a pure
function of `config`. -/

/-- The concrete adapter classes `configure` can instantiate. -/
inductive AdapterKind : Type
  | ultracite
  | prettier
  | stylelint
  | markdownlint
  deriving DecidableEq, Repr

/-- `AdapterRegistry.configure`: the adapter map after configuring with
`config`.  typescript and json register unless their flag is explicitly
`false`; css and markdown register only when their flag is explicitly
`true`; nothing is ever registered for yaml (and the commits branch
registers nothing). -/
def configure (config : BaselayerConfig) : FileType → Option AdapterKind
  | .typescript =>
    if featureFlag config .typescript ≠ some false then some .ultracite else none
  | .json =>
    if featureFlag config .json ≠ some false then some .prettier else none
  | .css =>
    if featureFlag config .styles = some true then some .stylelint else none
  | .markdown =>
    if featureFlag config .markdown = some true then some .markdownlint else none
  | .yaml => none

/-- `AdapterRegistry.hasAdapter` after `configure(config)`. -/
def hasAdapter (config : BaselayerConfig) (t : FileType) : Bool :=
  (configure config t).isSome

/-- The feature flag governing each category's adapter registration. -/
def categoryFeature : FileType → Option Feature
  | .typescript => some .typescript
  | .json => some .json
  | .css => some .styles
  | .markdown => some .markdown
  | .yaml => none

/-- The documented default of each flag (`DEFAULT_CONFIG.features` in
config-loader.ts, identical to the zod `.default(...)` values in
schemas/baselayer-config.ts). -/
def documentedDefault : Feature → Bool
  | .typescript => true
  | .markdown => true
  | .styles => false
  | .json => true
  | .commits => true
  | .packages => false
  | .testing => false
  | .docs => false

/-- A flag's value in a configuration, taking its documented default
when absent (the reading of "enabled" used by claim C3). -/
def flagOrDefault (c : BaselayerConfig) (f : Feature) : Bool :=
  (featureFlag c f).getD (documentedDefault f)

/-- A configuration with no features object at all. -/
def noFeaturesConfig : BaselayerConfig :=
  { features := none, overrides := none }

/-! ## Execution engine (orchestrator.ts)

An adapter's asynchronous `format`/`lint` call is modelled as a pure
function returning `Except String ToolResult`: `.error msg` models a
thrown exception with message `msg`.  `Promise.all` over independent
tasks is a `List.map`. -/

/-- `ToolResult` from types.ts. -/
structure ToolResult : Type where
  success : Bool
  output : String
  errors : List String
  exitCode : Int
  filesProcessed : Nat
  tool : String
  deriving DecidableEq, Repr

/-- The behaviour of one tool adapter, as the execution engine sees it. -/
structure ToolAdapter : Type where
  name : String
  formatOp : List String → Except String ToolResult
  lintOp : List String → Except String ToolResult

/-- `OrchestrationResult` from types.ts (wall-clock `executionTime` is
not modelled). -/
structure OrchestrationResult : Type where
  success : Bool
  results : List ToolResult
  totalFiles : Nat
  totalErrors : Nat
  deriving DecidableEq, Repr

/-- `Orchestrator.executeToolFormat`: no adapter yields `null`; a thrown
exception is converted into a failed `ToolResult` naming the adapter. -/
def executeToolFormat (registry : FileType → Option ToolAdapter)
    (fileType : FileType) (files : List String) : Option ToolResult :=
  match registry fileType with
  | none => none
  | some adapter =>
    match adapter.formatOp files with
    | .ok r => some r
    | .error msg =>
      some { success := false, output := ""
             errors := [adapter.name ++ " format failed: " ++ msg]
             exitCode := 1, filesProcessed := files.length
             tool := adapter.name }

/-- `Orchestrator.executeToolLint`, likewise. -/
def executeToolLint (registry : FileType → Option ToolAdapter)
    (fileType : FileType) (files : List String) : Option ToolResult :=
  match registry fileType with
  | none => none
  | some adapter =>
    match adapter.lintOp files with
    | .ok r => some r
    | .error msg =>
      some { success := false, output := ""
             errors := [adapter.name ++ " lint failed: " ++ msg]
             exitCode := 1, filesProcessed := files.length
             tool := adapter.name }

/-- Aggregation shared by `format` and `lint`: collect the non-null
results, sum `filesProcessed` and error counts, and take the conjunction
of the success flags. -/
def aggregate (results : List (Option ToolResult)) : OrchestrationResult :=
  let allResults := results.filterMap id
  { success := allResults.all (fun r => r.success)
    results := allResults
    totalFiles := allResults.foldl (fun sum r => sum + r.filesProcessed) 0
    totalErrors := allResults.foldl (fun sum r => sum + r.errors.length) 0 }

/-- The task fan-out of `Orchestrator.format` after categorization:
keep the categories that have a registered adapter and at least one
file, run each one's adapter, and aggregate. -/
def formatRun (registry : FileType → Option ToolAdapter)
    (categorized : FileType → List String)
    (fileTypes : List FileType) : OrchestrationResult :=
  let tasks :=
    (fileTypes.filter (fun t => (registry t).isSome)).filter
      (fun t => (categorized t).length > 0)
  aggregate (tasks.map (fun t => executeToolFormat registry t (categorized t)))

/-- The task fan-out of `Orchestrator.lint`, likewise. -/
def lintRun (registry : FileType → Option ToolAdapter)
    (categorized : FileType → List String)
    (fileTypes : List FileType) : OrchestrationResult :=
  let tasks :=
    (fileTypes.filter (fun t => (registry t).isSome)).filter
      (fun t => (categorized t).length > 0)
  aggregate (tasks.map (fun t => executeToolLint registry t (categorized t)))

/-- `Orchestrator.format` from file discovery onwards: `files` is the
list returned by `findFiles`.  Zero discovered files short-circuits to
the vacuous success before categorization; otherwise the `--only` filter
(or `Object.keys` of the categorized record) picks the candidate
categories. -/
def format (files : List String) (config : BaselayerConfig)
    (registry : FileType → Option ToolAdapter)
    (only : Option (List FileType)) : OrchestrationResult :=
  if files.length = 0 then
    { success := true, results := [], totalFiles := 0, totalErrors := 0 }
  else
    let categorized := categorizeFiles files (getFileHandlers config)
    let fileTypes := match only with
      | some ts => ts
      | none => allFileTypes
    formatRun registry categorized fileTypes

/-- `Orchestrator.lint` from file discovery onwards, likewise. -/
def lint (files : List String) (config : BaselayerConfig)
    (registry : FileType → Option ToolAdapter)
    (only : Option (List FileType)) : OrchestrationResult :=
  if files.length = 0 then
    { success := true, results := [], totalFiles := 0, totalErrors := 0 }
  else
    let categorized := categorizeFiles files (getFileHandlers config)
    let fileTypes := match only with
      | some ts => ts
      | none => allFileTypes
    lintRun registry categorized fileTypes

/-! ## JSONC cleaning (`ConfigLoader.parseJsonc`)

The source applies three global regex replacements to the raw text and
then calls `JSON.parse`:

  1. `/\/\/.*$/gm`  — delete from each `//` up to the next line
     terminator or the end of the input (`.` matches no line
     terminator, and with the `m` flag `$` matches before every one);
  2. `/\/\*[\s\S]*?\*\//g` — repeatedly delete from a `/*` to the
     nearest following `*/` (an unclosed `/*` is left in place);
  3. `/,(\s*[}\]])/g` — delete a comma that is followed, after
     whitespace, by `}` or `]`, keeping the whitespace and bracket.

None of the three passes knows about string literals.  Passes 2 and 3
are written with explicit fuel (bounded by the input length, which one
character of progress per step makes sufficient) so that they reduce in
the kernel. -/

/-- The ECMAScript line terminators, LF, CR, U+2028 and U+2029: `.`
matches none of them and multiline `$` matches before each of them. -/
def isLineTerm (c : Char) : Bool :=
  c = '\n' ∨ c = '\r' ∨ c = Char.ofNat 8232 ∨ c = Char.ofNat 8233

/-- Pass 1.  The mode records whether the scan is inside a `//` comment
(which ends before, and keeps, the next line terminator). -/
def stripLineCommentsAux : Bool → List Char → List Char
  | _, [] => []
  | true, c :: rest =>
    if isLineTerm c then c :: stripLineCommentsAux false rest
    else stripLineCommentsAux true rest
  | false, '/' :: '/' :: rest => stripLineCommentsAux true rest
  | false, c :: rest => c :: stripLineCommentsAux false rest

def stripLineComments (l : List Char) : List Char :=
  stripLineCommentsAux false l

/-- The input after the nearest `*/`, if any. -/
def afterStarSlash : List Char → Option (List Char)
  | [] => none
  | '*' :: '/' :: rest => some rest
  | _ :: rest => afterStarSlash rest

/-- Pass 2 with fuel. -/
def stripBlockCommentsAux : Nat → List Char → List Char
  | 0, l => l
  | _ + 1, [] => []
  | fuel + 1, '/' :: '*' :: rest =>
    match afterStarSlash rest with
    | some rest2 => stripBlockCommentsAux fuel rest2
    | none => '/' :: '*' :: rest
  | fuel + 1, c :: rest => c :: stripBlockCommentsAux fuel rest

def stripBlockComments (l : List Char) : List Char :=
  stripBlockCommentsAux l.length l

/-- The characters matched by the regex class `\s`: tab, LF, VT, FF,
CR, space, NBSP, U+1680, U+2000–U+200A, U+2028, U+2029, U+202F,
U+205F, U+3000 and U+FEFF (ECMAScript WhiteSpace plus LineTerminator). -/
def isRegexWs (c : Char) : Bool :=
  c = ' ' ∨ c = '\t' ∨ c = '\n' ∨ c = '\r' ∨
    c = Char.ofNat 11 ∨ c = Char.ofNat 12 ∨ c = Char.ofNat 160 ∨
    c = Char.ofNat 5760 ∨ (8192 ≤ c.toNat ∧ c.toNat ≤ 8202) ∨
    c = Char.ofNat 8232 ∨ c = Char.ofNat 8233 ∨
    c = Char.ofNat 8239 ∨ c = Char.ofNat 8287 ∨
    c = Char.ofNat 12288 ∨ c = Char.ofNat 65279

/-- If the input is whitespace followed by `}` or `]`, split it into
that prefix (whitespace plus the bracket) and the remainder. -/
def takeWsThenBracket : List Char → Option (List Char × List Char)
  | [] => none
  | c :: rest =>
    if c = '}' ∨ c = ']' then some ([c], rest)
    else if isRegexWs c then
      match takeWsThenBracket rest with
      | some (kept, rest2) => some (c :: kept, rest2)
      | none => none
    else none

/-- Pass 3 with fuel: scanning resumes after the kept bracket, as a
global regex does. -/
def stripTrailingCommasAux : Nat → List Char → List Char
  | 0, l => l
  | _ + 1, [] => []
  | fuel + 1, ',' :: rest =>
    match takeWsThenBracket rest with
    | some (kept, rest2) => kept ++ stripTrailingCommasAux fuel rest2
    | none => ',' :: stripTrailingCommasAux fuel rest
  | fuel + 1, c :: rest => c :: stripTrailingCommasAux fuel rest

def stripTrailingCommas (l : List Char) : List Char :=
  stripTrailingCommasAux l.length l

/-- The composed cleaning step of `parseJsonc`. -/
def cleanJsonc (l : List Char) : List Char :=
  stripTrailingCommas (stripBlockComments (stripLineComments l))

/-! ## JSON.parse model

A recursive-descent parser for the JSON grammar, the standard-library
function `parseJsonc` hands its cleaned text to.  `JSON.parse` skips
only space, tab, LF and CR between tokens, per the JSON grammar.  One
deviation from JavaScript, which no claim touches: `\u` escapes
denoting UTF-16 surrogates are rejected rather than paired. -/

def isJsonWs (c : Char) : Bool :=
  c = ' ' ∨ c = '\t' ∨ c = '\n' ∨ c = '\r'

def skipWs (l : List Char) : List Char :=
  l.dropWhile isJsonWs

def hexVal (c : Char) : Option Nat :=
  if c.isDigit then some (c.toNat - 48)
  else if 'a' ≤ c ∧ c ≤ 'f' then some (c.toNat - 87)
  else if 'A' ≤ c ∧ c ≤ 'F' then some (c.toNat - 55)
  else none

def escapeChar (e : Char) : Option Char :=
  if e = '"' then some '"'
  else if e = '\\' then some '\\'
  else if e = '/' then some '/'
  else if e = 'b' then some (Char.ofNat 8)
  else if e = 'f' then some (Char.ofNat 12)
  else if e = 'n' then some '\n'
  else if e = 'r' then some '\r'
  else if e = 't' then some '\t'
  else none

/-- Parse the body of a string literal after its opening quote; returns
the decoded characters and the input after the closing quote. -/
def parseStringChars : List Char → Except String (List Char × List Char)
  | [] => .error "unterminated string"
  | '"' :: rest => .ok ([], rest)
  | '\\' :: 'u' :: h1 :: h2 :: h3 :: h4 :: rest =>
    (match hexVal h1, hexVal h2, hexVal h3, hexVal h4 with
    | some a, some b, some c, some d =>
      let code := ((a * 16 + b) * 16 + c) * 16 + d
      if code < 55296 ∨ 57344 ≤ code then
        match parseStringChars rest with
        | .ok (s, rest2) => .ok (Char.ofNat code :: s, rest2)
        | .error e => .error e
      else .error "surrogate unicode escapes not modelled"
    | _, _, _, _ => .error "invalid unicode escape")
  | '\\' :: e :: rest =>
    (match escapeChar e with
    | some c =>
      match parseStringChars rest with
      | .ok (s, rest2) => .ok (c :: s, rest2)
      | .error e2 => .error e2
    | none => .error "invalid escape sequence")
  | c :: rest =>
    if c.toNat < 32 then .error "unescaped control character"
    else
      match parseStringChars rest with
      | .ok (s, rest2) => .ok (c :: s, rest2)
      | .error e => .error e

def numberChar (c : Char) : Bool :=
  c.isDigit ∨ c = '-' ∨ c = '+' ∨ c = '.' ∨ c = 'e' ∨ c = 'E'

/-- One-or-more digits; returns the remainder. -/
def parseDigits1 (l : List Char) : Option (List Char) :=
  if l.takeWhile Char.isDigit = [] then none
  else some (l.dropWhile Char.isDigit)

/-- The JSON integer part: `0`, or a nonzero digit followed by digits. -/
def parseIntPart : List Char → Option (List Char)
  | [] => none
  | c :: r =>
    if c = '0' then some r
    else if c.isDigit then some (r.dropWhile Char.isDigit)
    else none

def parseFracPart : List Char → Option (List Char)
  | '.' :: r => parseDigits1 r
  | l => some l

def parseExpPart : List Char → Option (List Char)
  | e :: r =>
    if e = 'e' ∨ e = 'E' then
      match r with
      | s :: r2 => if s = '+' ∨ s = '-' then parseDigits1 r2 else parseDigits1 r
      | [] => none
    else some (e :: r)
  | [] => some []

/-- Whether a lexeme is a complete JSON number. -/
def validNumber (l : List Char) : Bool :=
  let l1 := match l with
    | '-' :: r => r
    | _ => l
  match parseIntPart l1 with
  | none => false
  | some l2 =>
    match parseFracPart l2 with
    | none => false
    | some l3 =>
      match parseExpPart l3 with
      | some [] => true
      | _ => false

def parseNumberTok (l : List Char) : Except String (Json × List Char) :=
  let lexeme := l.takeWhile numberChar
  if validNumber lexeme then .ok (.num (String.mk lexeme), l.dropWhile numberChar)
  else .error "invalid number"

mutual

/-- Parse one JSON value, returning it and the unconsumed input.  Fuel
decreases on every recursive call; one character of progress per unit
makes `length + 1` sufficient at top level. -/
def parseValue : Nat → List Char → Except String (Json × List Char)
  | 0, _ => .error "out of fuel"
  | fuel + 1, l =>
    match skipWs l with
    | [] => .error "unexpected end of input"
    | 'n' :: 'u' :: 'l' :: 'l' :: rest => .ok (.null, rest)
    | 't' :: 'r' :: 'u' :: 'e' :: rest => .ok (.bool true, rest)
    | 'f' :: 'a' :: 'l' :: 's' :: 'e' :: rest => .ok (.bool false, rest)
    | '"' :: rest =>
      (match parseStringChars rest with
      | .ok (s, rest2) => .ok (.str (String.mk s), rest2)
      | .error e => .error e)
    | '[' :: rest =>
      (match skipWs rest with
      | ']' :: rest2 => .ok (.arr [], rest2)
      | other => match parseArrayLoop fuel other with
        | .ok (items, rest2) => .ok (.arr items, rest2)
        | .error e => .error e)
    | '{' :: rest =>
      (match skipWs rest with
      | '}' :: rest2 => .ok (.obj [], rest2)
      | other => match parseObjectLoop fuel other with
        | .ok (fields, rest2) => .ok (.obj fields, rest2)
        | .error e => .error e)
    | c :: rest =>
      if c = '-' ∨ c.isDigit then parseNumberTok (c :: rest)
      else .error "unexpected token"

/-- Comma-separated values up to the closing `]`. -/
def parseArrayLoop : Nat → List Char → Except String (List Json × List Char)
  | 0, _ => .error "out of fuel"
  | fuel + 1, l =>
    match parseValue fuel l with
    | .error e => .error e
    | .ok (v, rest) =>
      match skipWs rest with
      | ',' :: rest2 =>
        (match parseArrayLoop fuel rest2 with
        | .ok (vs, rest3) => .ok (v :: vs, rest3)
        | .error e => .error e)
      | ']' :: rest2 => .ok ([v], rest2)
      | _ => .error "expected comma or closing bracket in array"

/-- Comma-separated `"key": value` pairs up to the closing `}`. -/
def parseObjectLoop : Nat → List Char → Except String (List (String × Json) × List Char)
  | 0, _ => .error "out of fuel"
  | fuel + 1, l =>
    match skipWs l with
    | '"' :: rest =>
      (match parseStringChars rest with
      | .error e => .error e
      | .ok (k, rest2) =>
        match skipWs rest2 with
        | ':' :: rest3 =>
          (match parseValue fuel rest3 with
          | .error e => .error e
          | .ok (v, rest4) =>
            match skipWs rest4 with
            | ',' :: rest5 =>
              (match parseObjectLoop fuel rest5 with
              | .ok (kvs, rest6) => .ok ((String.mk k, v) :: kvs, rest6)
              | .error e => .error e)
            | '}' :: rest5 => .ok ([(String.mk k, v)], rest5)
            | _ => .error "expected comma or closing brace in object")
        | _ => .error "expected colon after object key")
    | _ => .error "expected string key in object"

end

/-- Model of JavaScript `JSON.parse`: one value, then only whitespace. -/
def jsonParse (s : String) : Except String Json :=
  match parseValue (s.length + 1) s.data with
  | .error e => .error e
  | .ok (v, rest) =>
    match skipWs rest with
    | [] => .ok v
    | _ => .error "unexpected non-whitespace character after JSON data"

/-- `ConfigLoader.parseJsonc`: the three cleaning passes, then
`JSON.parse`.  A parse failure is the thrown exception the caller's
`catch` turns into a `CONFIG_INVALID` failure. -/
def parseJsonc (content : String) : Except String Json :=
  jsonParse (String.mk (cleanJsonc content.data))

/-! ## Configuration validation (schemas/baselayer-config.ts)

Model of `validateBaselayerConfig = BaselayerConfigSchema.parse`.  Zod
objects reject non-object input, reject wrongly typed declared fields,
strip undeclared fields, and fill each `features` flag with its
declared default when the key is absent. -/

/-- A field of a parsed object; `JSON.parse` keeps the last duplicate
key, so the last binding wins. -/
def lookupField (fields : List (String × Json)) (k : String) : Option Json :=
  ((fields.filter (fun p => p.1 = k)).getLast?).map (fun p => p.2)

/-- The `features` object after zod validation: every flag concrete. -/
structure ValidatedFeatures : Type where
  typescript : Bool
  markdown : Bool
  styles : Bool
  json : Bool
  commits : Bool
  packages : Bool
  testing : Bool
  docs : Bool
  deriving DecidableEq, Repr

/-- One `z.boolean().default(dflt)` field. -/
def validateBoolField (fields : List (String × Json)) (name : String)
    (dflt : Bool) : Except String Bool :=
  match lookupField fields name with
  | none => .ok dflt
  | some (.bool b) => .ok b
  | some _ => .error ("features." ++ name ++ ": expected boolean")

/-- `FeaturesSchema.parse`. -/
def validateFeatures : Json → Except String ValidatedFeatures
  | .obj fields => do
    let typescript ← validateBoolField fields "typescript" true
    let markdown ← validateBoolField fields "markdown" true
    let styles ← validateBoolField fields "styles" false
    let json ← validateBoolField fields "json" true
    let commits ← validateBoolField fields "commits" true
    let packages ← validateBoolField fields "packages" false
    let testing ← validateBoolField fields "testing" false
    let docs ← validateBoolField fields "docs" false
    .ok { typescript := typescript, markdown := markdown, styles := styles,
          json := json, commits := commits, packages := packages,
          testing := testing, docs := docs }
  | _ => .error "features: expected object"

/-- An optional tool-override entry; `z.record`/`z.object` both demand
an object value. -/
def validateOptObjField (fields : List (String × Json)) (name : String) :
    Except String (Option Json) :=
  match lookupField fields name with
  | none => .ok none
  | some (.obj kvs) => .ok (some (.obj kvs))
  | some _ => .error ("overrides." ++ name ++ ": expected object")

/-- `OverridesSchema.parse`. -/
def validateOverrides : Json → Except String OverridesConfig
  | .obj fields => do
    let biome ← validateOptObjField fields "biome"
    let prettier ← validateOptObjField fields "prettier"
    let stylelint ← validateOptObjField fields "stylelint"
    let markdownlint ← validateOptObjField fields "markdownlint"
    .ok { biome := biome, prettier := prettier, stylelint := stylelint,
          markdownlint := markdownlint }
  | _ => .error "overrides: expected object"

/-- One optional `z.enum([...])` field. -/
def validateEnumField (fields : List (String × Json)) (name : String)
    (allowed : List String) : Except String Unit :=
  match lookupField fields name with
  | none => .ok ()
  | some (.str s) =>
    if s ∈ allowed then .ok () else .error (name ++ ": invalid enum value")
  | some _ => .error (name ++ ": expected string")

/-- One optional `z.string()` field. -/
def validateOptStringField (fields : List (String × Json)) (name : String) :
    Except String Unit :=
  match lookupField fields name with
  | none => .ok ()
  | some (.str _) => .ok ()
  | some _ => .error (name ++ ": expected string")

/-- `ProjectContextSchema.parse` (the result is never read). -/
def validateProject : Json → Except String Unit
  | .obj fields => do
    validateEnumField fields "type" ["monorepo", "library", "application"]
    validateEnumField fields "framework" ["react", "vue", "svelte", "next", "astro"]
    validateEnumField fields "packageManager" ["npm", "yarn", "pnpm", "bun"]
    validateOptStringField fields "rootDir"
  | _ => .error "project: expected object"

def isJsonString : Json → Bool
  | .str _ => true
  | _ => false

/-- `z.array(z.string())`. -/
def validateStringArray (name : String) : Json → Except String Unit
  | .arr items =>
    if items.all isJsonString then .ok ()
    else .error (name ++ ": expected array of strings")
  | _ => .error (name ++ ": expected array")

/-- `z.union([z.string(), z.array(z.string())])`. -/
def validateStringOrArray (name : String) : Json → Except String Unit
  | .str _ => .ok ()
  | j => validateStringArray name j

/-- An optional declared field checked by `check` when present. -/
def validateOptField (fields : List (String × Json)) (name : String)
    (check : Json → Except String Unit) : Except String Unit :=
  match lookupField fields name with
  | none => .ok ()
  | some j => check j

/-- The zod output of `BaselayerConfigSchema.parse` restricted to the
fields the orchestration core reads. -/
structure UserConfig : Type where
  features : Option ValidatedFeatures
  overrides : Option OverridesConfig

/-- `validateBaselayerConfig`. -/
def validateBaselayerConfig : Json → Except String UserConfig
  | .obj fields => do
    validateOptField fields "$schema" (fun j =>
      match j with
      | .str _ => .ok ()
      | _ => .error "$schema: expected string")
    let features ← match lookupField fields "features" with
      | none => Except.ok none
      | some j =>
        match validateFeatures j with
        | .ok vf => Except.ok (some vf)
        | .error e => Except.error e
    let overrides ← match lookupField fields "overrides" with
      | none => Except.ok none
      | some j =>
        match validateOverrides j with
        | .ok vo => Except.ok (some vo)
        | .error e => Except.error e
    validateOptField fields "project" validateProject
    validateOptField fields "ignore" (validateStringArray "ignore")
    validateOptField fields "extends" (validateStringOrArray "extends")
    validateOptField fields "presets" (validateStringArray "presets")
    .ok { features := features, overrides := overrides }
  | _ => .error "expected object"

/-! ## Configuration loading and merging (config-loader.ts) -/

/-- `DEFAULT_CONFIG.features`: every flag present. -/
def DEFAULT_FEATURES : FeaturesConfig :=
  { typescript := some true, markdown := some true, styles := some false,
    json := some true, commits := some true, packages := some false,
    testing := some false, docs := some false }

/-- An overrides object with no tool entries (`{}`). -/
def emptyOverrides : OverridesConfig :=
  { biome := none, prettier := none, stylelint := none, markdownlint := none }

/-- `DEFAULT_CONFIG` from config-loader.ts. -/
def DEFAULT_CONFIG : BaselayerConfig :=
  { features := some DEFAULT_FEATURES, overrides := some emptyOverrides }

/-- A zod-validated features object as the runtime object the rest of
the system reads (every key present). -/
def validatedFeaturesToConfig (vf : ValidatedFeatures) : FeaturesConfig :=
  { typescript := some vf.typescript, markdown := some vf.markdown,
    styles := some vf.styles, json := some vf.json,
    commits := some vf.commits, packages := some vf.packages,
    testing := some vf.testing, docs := some vf.docs }

/-- `ConfigLoader.mergeWithDefaults`: key-by-key spread of the user's
features over the defaults.  A validated features object carries all
eight keys, so when present it replaces every default; `overrides`
spreads the user map over the empty default map. -/
def mergeWithDefaults (userConfig : UserConfig) : BaselayerConfig :=
  { features := some (match userConfig.features with
      | none => DEFAULT_FEATURES
      | some vf => validatedFeaturesToConfig vf)
    overrides := some (match userConfig.overrides with
      | none => emptyOverrides
      | some ov => ov) }

/-- `FlintError` from types.ts (the `details` payload is unused here). -/
structure FlintError : Type where
  code : String
  message : String
  deriving DecidableEq, Repr

def makeError (code message : String) : FlintError :=
  { code := code, message := message }

/-- The candidate config filenames, in priority order. -/
def configPaths : List String :=
  ["baselayer.jsonc", "baselayer.json", ".baselayerrc.jsonc",
   ".baselayerrc.json", "outfitter.config.js", "outfitter.config.mjs"]

/-- Model of `String.prototype.endsWith` (the library function does not
reduce in the kernel). -/
def strEndsWith (s suffix : String) : Bool :=
  s.data.reverse.take suffix.data.length = suffix.data.reverse

/-- The body of the `try` block of `loadConfig` for one found candidate:
parse (JSONC for `.json`/`.jsonc` candidates, dynamic import for the
legacy JS ones, modelled by the `importJs` parameter), validate, merge.
Any `.error` is the thrown exception the `catch` converts. -/
def loadOne (importJs : String → Except String Json) (configPath : String)
    (content : String) : Except String BaselayerConfig :=
  match (if strEndsWith configPath ".json" ∨ strEndsWith configPath ".jsonc" then
          parseJsonc content
        else importJs configPath) with
  | .error e => .error e
  | .ok userJson =>
    match validateBaselayerConfig userJson with
    | .error e => .error e
    | .ok validated => .ok (mergeWithDefaults validated)

/-- The candidate loop of `ConfigLoader.loadConfig`.  `fs` models
`readFileSync`: `none` is an `ENOENT` throw, which `continue`s to the
next candidate; any other failure of the `try` body returns a
`CONFIG_INVALID` failure; an empty remainder returns the defaults. -/
def loadConfigAux (fs : String → Option String)
    (importJs : String → Except String Json) :
    List String → Except FlintError BaselayerConfig
  | [] => .ok DEFAULT_CONFIG
  | configPath :: rest =>
    match fs configPath with
    | none => loadConfigAux fs importJs rest
    | some content =>
      match loadOne importJs configPath content with
      | .ok merged => .ok merged
      | .error e =>
        .error (makeError "CONFIG_INVALID"
          ("Failed to load config from " ++ configPath ++ ": " ++ e))

/-- `ConfigLoader.loadConfig`. -/
def loadConfig (fs : String → Option String)
    (importJs : String → Except String Json) :
    Except FlintError BaselayerConfig :=
  loadConfigAux fs importJs configPaths

/-- `ConfigLoader.isFeatureEnabled`: `config.features?.[feature] ?? false`. -/
def isFeatureEnabled (config : BaselayerConfig) (feature : Feature) : Bool :=
  match featureFlag config feature with
  | some b => b
  | none => false

/-! ## Hazard predicates for the JSONC cleaning passes

The three regex passes act on raw text with no notion of string
literals.  A text in which none of the patterns occurs at all passes
through them unchanged; these predicates characterise that class. -/

/-- Whether `//` occurs anywhere. -/
def hasDoubleSlash : List Char → Bool
  | [] => false
  | '/' :: '/' :: _ => true
  | _ :: rest => hasDoubleSlash rest

/-- Whether `/*` occurs anywhere. -/
def hasSlashStar : List Char → Bool
  | [] => false
  | '/' :: '*' :: _ => true
  | _ :: rest => hasSlashStar rest

/-- Whether a comma followed (after whitespace) by `}` or `]` occurs
anywhere. -/
def hasTrailingCommaPat : List Char → Bool
  | [] => false
  | ',' :: rest => (takeWsThenBracket rest).isSome || hasTrailingCommaPat rest
  | _ :: rest => hasTrailingCommaPat rest

/-- No pass of `cleanJsonc` finds anything to rewrite in such text. -/
def hazardFree (l : List Char) : Bool :=
  !hasDoubleSlash l && !hasSlashStar l && !hasTrailingCommaPat l

/-- A crashing adapter for the typescript category. -/
def crashingAdapter : ToolAdapter :=
  { name := "ultracite"
    formatOp := fun _ => .error "boom"
    lintOp := fun _ => .error "boom" }

/-- A succeeding result for the json category's adapter. -/
def okResult : ToolResult :=
  { success := true, output := "", errors := [], exitCode := 0
    filesProcessed := 1, tool := "prettier" }

/-- A succeeding adapter for the json category. -/
def okAdapter : ToolAdapter :=
  { name := "prettier"
    formatOp := fun _ => .ok okResult
    lintOp := fun _ => .ok okResult }

/-- A registry with a crashing typescript adapter and a succeeding json
adapter. -/
def mixedRegistry : FileType → Option ToolAdapter
  | .typescript => some crashingAdapter
  | .json => some okAdapter
  | _ => none

/-- One typescript file and one json file. -/
def mixedCategorized : FileType → List String
  | .typescript => ["a.ts"]
  | .json => ["b.json"]
  | _ => []

/-- A dynamic import that always fails (never reached by the witness's
candidates). -/
def importJs0 : String → Except String Json := fun _ => .error "unsupported"

/-- A working tree whose only candidate file is a malformed
`baselayer.jsonc`. -/
def fsBad : String → Option String := fun p =>
  if p = "baselayer.jsonc" then some "\x7bnope" else none

/-! # Supporting lemmas -/

lemma getFileHandlers_eq (c : BaselayerConfig) :
    getFileHandlers c =
      resolvedHandlers (truthy (featureFlag c .styles))
        (truthy (featureFlag c .markdown)) := by
  unfold getFileHandlers resolvedHandlers
  rcases hs : truthy (featureFlag c .styles) <;>
    rcases hm : truthy (featureFlag c .markdown) <;> simp [hs, hm]

lemma featureFlag_withFeature_same (c : BaselayerConfig) (f : Feature) (b : Bool) :
    featureFlag (withFeature c f b) f = some b := by
  rcases c with ⟨fs, ov⟩
  rcases fs with _ | fs <;> rcases f <;>
    simp [withFeature, featureFlag, Option.getD, emptyFeatures,
      FeaturesConfig.set, FeaturesConfig.get]

lemma featureFlag_withFeature_other (c : BaselayerConfig) (f g : Feature)
    (b : Bool) (hne : g ≠ f) (hfs : c.features ≠ none) :
    featureFlag (withFeature c f b) g = featureFlag c g := by
  rcases c with ⟨fs, ov⟩
  rcases fs with _ | fs
  · simp at hfs
  · rcases f <;> rcases g <;> simp_all [withFeature, featureFlag,
      Option.getD, FeaturesConfig.set, FeaturesConfig.get]

lemma categorizeFiles_foldl (h : Handlers) (files : List String)
    (acc : FileType → List String) (t : FileType) :
    (files.foldl (categorizeStep h) acc) t =
      acc t ++ files.filter (fun f => firstMatch h (extname f) = some t) := by
  induction files generalizing acc with
  | nil => simp
  | cons f fs ih =>
    rw [List.foldl_cons, ih, List.filter_cons]
    unfold categorizeStep
    rcases hfm : firstMatch h (extname f) with _ | u
    · simp [hfm]
    · by_cases ht : u = t
      · subst ht; simp [hfm]
      · simp [hfm, Ne.symm ht, ht]

lemma categorizeFiles_eq_filter (files : List String) (h : Handlers)
    (t : FileType) :
    categorizeFiles files h t =
      files.filter (fun f => firstMatch h (extname f) = some t) := by
  unfold categorizeFiles
  rw [categorizeFiles_foldl]
  simp

lemma mem_categorizeFiles (files : List String) (h : Handlers)
    (t : FileType) (f : String) :
    f ∈ categorizeFiles files h t ↔
      f ∈ files ∧ firstMatch h (extname f) = some t := by
  rw [categorizeFiles_eq_filter, List.mem_filter]
  simp

lemma no_match2_iff (c x : Char) (xs : List Char) :
    (∀ r2 : List Char, c = '/' → xs = x :: r2 → False) ↔
      ¬(c = '/' ∧ xs.head? = some x) := by
  constructor
  · rintro h ⟨hc, hh⟩
    rcases xs with _ | ⟨d, tail⟩
    · simp at hh
    · simp at hh
      exact h tail hc (by rw [hh])
  · intro h r2 hc hxs
    exact h ⟨hc, by rw [hxs]; rfl⟩

lemma hasDoubleSlash_cons (c : Char) (rest : List Char)
    (h : ∀ r2 : List Char, c = '/' → rest = '/' :: r2 → False) :
    hasDoubleSlash (c :: rest) = hasDoubleSlash rest := by
  by_cases hc : c = '/'
  · subst hc
    rcases rest with _ | ⟨d, rest2⟩
    · rfl
    · have hd : d ≠ '/' := fun hdeq => h rest2 rfl (by rw [hdeq])
      simp [hasDoubleSlash, hd]
  · simp [hasDoubleSlash, hc]

lemma hasSlashStar_cons (c : Char) (rest : List Char)
    (h : ∀ r2 : List Char, c = '/' → rest = '*' :: r2 → False) :
    hasSlashStar (c :: rest) = hasSlashStar rest := by
  by_cases hc : c = '/'
  · subst hc
    rcases rest with _ | ⟨d, rest2⟩
    · rfl
    · have hd : d ≠ '*' := fun hdeq => h rest2 rfl (by rw [hdeq])
      simp [hasSlashStar, hd]
  · simp [hasSlashStar, hc]

lemma hasTrailingCommaPat_cons (c : Char) (rest : List Char) (hc : c ≠ ',') :
    hasTrailingCommaPat (c :: rest) = hasTrailingCommaPat rest := by
  simp [hasTrailingCommaPat, hc]

lemma stripLineCommentsAux_copy (c : Char) (rest : List Char)
    (h : ∀ r2 : List Char, c = '/' → rest = '/' :: r2 → False) :
    stripLineCommentsAux false (c :: rest) = c :: stripLineCommentsAux false rest := by
  by_cases hc : c = '/'
  · subst hc
    rcases rest with _ | ⟨d, rest2⟩
    · rfl
    · have hd : d ≠ '/' := fun hdeq => h rest2 rfl (by rw [hdeq])
      simp [stripLineCommentsAux, hd]
  · simp [stripLineCommentsAux, hc]

lemma stripLineCommentsAux_id (l : List Char) (h : hasDoubleSlash l = false) :
    stripLineCommentsAux false l = l := by
  induction l with
  | nil => rfl
  | cons c rest ih =>
    have hnm : ∀ r2 : List Char, c = '/' → rest = '/' :: r2 → False := by
      intro r2 hc hr
      subst hc
      subst hr
      simp [hasDoubleSlash] at h
    rw [hasDoubleSlash_cons c rest hnm] at h
    rw [stripLineCommentsAux_copy c rest hnm, ih h]

lemma stripBlockCommentsAux_copy (n : Nat) (c : Char) (rest : List Char)
    (h : ∀ r2 : List Char, c = '/' → rest = '*' :: r2 → False) :
    stripBlockCommentsAux (n + 1) (c :: rest) = c :: stripBlockCommentsAux n rest := by
  by_cases hc : c = '/'
  · subst hc
    rcases rest with _ | ⟨d, rest2⟩
    · rfl
    · have hd : d ≠ '*' := fun hdeq => h rest2 rfl (by rw [hdeq])
      simp [stripBlockCommentsAux, hd]
  · simp [stripBlockCommentsAux, hc]

lemma stripBlockCommentsAux_id :
    ∀ (fuel : Nat) (l : List Char), hasSlashStar l = false →
      stripBlockCommentsAux fuel l = l := by
  intro fuel
  induction fuel with
  | zero => intro l _; rfl
  | succ n ih =>
    intro l h
    rcases l with _ | ⟨c, rest⟩
    · rfl
    · have hnm : ∀ r2 : List Char, c = '/' → rest = '*' :: r2 → False := by
        intro r2 hc hr
        subst hc
        subst hr
        simp [hasSlashStar] at h
      rw [hasSlashStar_cons c rest hnm] at h
      rw [stripBlockCommentsAux_copy n c rest hnm, ih rest h]

lemma stripTrailingCommasAux_id :
    ∀ (fuel : Nat) (l : List Char), hasTrailingCommaPat l = false →
      stripTrailingCommasAux fuel l = l := by
  intro fuel
  induction fuel with
  | zero => intro l _; rfl
  | succ n ih =>
    intro l h
    rcases l with _ | ⟨c, rest⟩
    · rfl
    · by_cases hc : c = ','
      · subst hc
        rw [hasTrailingCommaPat] at h
        simp only [Bool.or_eq_false_iff] at h
        have hnone : takeWsThenBracket rest = none :=
          Option.not_isSome_iff_eq_none.mp (by simp [h.1])
        simp only [stripTrailingCommasAux, hnone]
        rw [ih rest h.2]
      · rw [hasTrailingCommaPat_cons c rest hc] at h
        have : stripTrailingCommasAux (n + 1) (c :: rest) =
            c :: stripTrailingCommasAux n rest := by
          simp [stripTrailingCommasAux, hc]
        rw [this, ih rest h]

lemma cleanJsonc_id (l : List Char) (h : hazardFree l = true) :
    cleanJsonc l = l := by
  unfold hazardFree at h
  simp only [Bool.and_eq_true, Bool.not_eq_true'] at h
  unfold cleanJsonc stripBlockComments stripTrailingCommas stripLineComments
  rw [stripLineCommentsAux_id l h.1.1, stripBlockCommentsAux_id _ l h.1.2,
    stripTrailingCommasAux_id _ l h.2]

lemma mk_data (s : String) : String.mk s.data = s := by
  rcases s with ⟨d⟩
  rfl



lemma stripLineCommentsAux_true_drop (comment l : List Char)
    (h : ∀ c ∈ comment, isLineTerm c = false) :
    stripLineCommentsAux true (comment ++ l) = stripLineCommentsAux true l := by
  induction comment with
  | nil => rfl
  | cons c rest ih =>
    have hc : isLineTerm c = false := h c (List.mem_cons_self c rest)
    have hrest : ∀ c2 ∈ rest, isLineTerm c2 = false :=
      fun c2 hmem => h c2 (List.mem_cons_of_mem c hmem)
    rw [List.cons_append]
    simp only [stripLineCommentsAux, hc, Bool.false_eq_true, if_false]
    exact ih hrest

lemma head_append_take (code : List Char) (l : List Char) :
    (code ++ l).head? = (code ++ l.take 1).head? := by
  rcases code with _ | ⟨c, code'⟩
  · rcases l with _ | ⟨x, xs⟩ <;> rfl
  · rfl

lemma hasDoubleSlash_of_head (c : Char) (xs : List Char)
    (hc : c = '/') (hh : xs.head? = some '/') :
    hasDoubleSlash (c :: xs) = true := by
  subst hc
  rcases xs with _ | ⟨d, tail⟩
  · simp at hh
  · simp only [List.head?_cons, Option.some_inj] at hh
    subst hh
    rfl

lemma stripLineCommentsAux_false_append (code l : List Char)
    (h : hasDoubleSlash (code ++ l.take 1) = false) :
    stripLineCommentsAux false (code ++ l) =
      code ++ stripLineCommentsAux false l := by
  induction code with
  | nil => simp
  | cons c code' ih =>
    have hnm2 : ¬(c = '/' ∧ (code' ++ l.take 1).head? = some '/') := by
      rintro ⟨hc, hh⟩
      rw [List.cons_append, hasDoubleSlash_of_head c (code' ++ l.take 1) hc hh] at h
      cases h
    have hnm : ∀ r2 : List Char, c = '/' → code' ++ l = '/' :: r2 → False := by
      rw [no_match2_iff]
      rintro ⟨hc, hh⟩
      exact hnm2 ⟨hc, by rw [← head_append_take code' l]; exact hh⟩
    have h' : hasDoubleSlash (code' ++ l.take 1) = false := by
      rw [List.cons_append] at h
      rw [← hasDoubleSlash_cons c (code' ++ l.take 1) ((no_match2_iff c '/' _).mpr hnm2)]
      exact h
    rw [List.cons_append, stripLineCommentsAux_copy c (code' ++ l) hnm, ih h',
      List.cons_append]

lemma hasDoubleSlash_append_single (code : List Char) (d : Char)
    (h : hasDoubleSlash (code ++ ['/']) = false) :
    hasDoubleSlash (code ++ [d]) = false := by
  induction code with
  | nil =>
    have : ∀ r2 : List Char, d = '/' → ([] : List Char) = '/' :: r2 → False := by
      intro r2 _ hr
      cases hr
    rw [List.nil_append, hasDoubleSlash_cons d [] this]
    rfl
  | cons c code' ih =>
    have hnmSlash : ∀ r2 : List Char, c = '/' → code' ++ ['/'] = '/' :: r2 → False := by
      intro r2 hc hr
      rw [List.cons_append, hasDoubleSlash_of_head c (code' ++ ['/']) hc (by rw [hr]; rfl)] at h
      cases h
    have h' : hasDoubleSlash (code' ++ ['/']) = false := by
      rw [List.cons_append, hasDoubleSlash_cons c (code' ++ ['/']) hnmSlash] at h
      exact h
    have hnmD : ∀ r2 : List Char, c = '/' → code' ++ [d] = '/' :: r2 → False := by
      intro r2 hc hr
      rcases code' with _ | ⟨e, code''⟩
      · -- code' = []: [d] = '/' :: r2, so d = '/', and code ++ ['/'] = [c, '/'] with c = '/'
        rw [List.nil_append] at hr
        injection hr with hd _
        exact hnmSlash [] hc (by rw [List.nil_append])
      · injection hr with he _
        exact hnmSlash (code'' ++ ['/']) hc (by rw [he]; rfl)
    rw [List.cons_append, hasDoubleSlash_cons c (code' ++ [d]) hnmD]
    exact ih h'

/-! # Claims -/

/-- C1: for every configuration the resolved category→extensions map
equals the fixed base map, except that a falsy styling flag moves the
css extensions into the json (structured-data) category and empties the
css set, a falsy markdown flag likewise moves the markdown extensions
into the json category and empties the markdown set; and explicitly
re-enabling both disabled categories restores the base partition. -/
theorem resolver_boundary_reassignment (c : BaselayerConfig) :
    (getFileHandlers c).get .typescript = BASE_FILE_HANDLERS.get .typescript ∧
    (getFileHandlers c).get .yaml = BASE_FILE_HANDLERS.get .yaml ∧
    (getFileHandlers c).get .json = BASE_FILE_HANDLERS.get .json
      ++ (if truthy (featureFlag c .styles) then []
          else BASE_FILE_HANDLERS.get .css)
      ++ (if truthy (featureFlag c .markdown) then []
          else BASE_FILE_HANDLERS.get .markdown) ∧
    ((getFileHandlers c).get .css =
      if truthy (featureFlag c .styles) then BASE_FILE_HANDLERS.get .css
      else []) ∧
    ((getFileHandlers c).get .markdown =
      if truthy (featureFlag c .markdown) then BASE_FILE_HANDLERS.get .markdown
      else []) ∧
    getFileHandlers (withFeature (withFeature c .styles true) .markdown true) =
      BASE_FILE_HANDLERS := by
  have hre : getFileHandlers (withFeature (withFeature c .styles true) .markdown true) =
      BASE_FILE_HANDLERS := by
    have hm : featureFlag (withFeature (withFeature c .styles true) .markdown true)
        .markdown = some true := featureFlag_withFeature_same _ _ _
    have hs : featureFlag (withFeature (withFeature c .styles true) .markdown true)
        .styles = some true := by
      rw [featureFlag_withFeature_other _ _ _ _ (by simp) (by simp [withFeature])]
      exact featureFlag_withFeature_same _ _ _
    rw [getFileHandlers_eq, hm, hs]
    decide
  rw [getFileHandlers_eq]
  rcases truthy (featureFlag c .styles) <;>
    rcases truthy (featureFlag c .markdown) <;>
      exact ⟨rfl, rfl, rfl, rfl, rfl, hre⟩

/-- C2: for every configuration, the resolved map is a partition — no
extension lies in two different categories' sets — and every extension
of the base map still lies in some category's set. -/
theorem resolver_partition (c : BaselayerConfig) :
    (∀ t₁ t₂ : FileType, t₁ ≠ t₂ →
      ∀ e : String, e ∈ (getFileHandlers c).get t₁ →
        e ∉ (getFileHandlers c).get t₂) ∧
    (∀ t : FileType, ∀ e ∈ BASE_FILE_HANDLERS.get t,
      ∃ u : FileType, e ∈ (getFileHandlers c).get u) := by
  rw [getFileHandlers_eq]
  rcases truthy (featureFlag c .styles) <;>
    rcases truthy (featureFlag c .markdown) <;> exact (by decide)

theorem resolver_partition_witness :
    ".ts" ∉ (getFileHandlers noFeaturesConfig).get .json :=
  (resolver_partition noFeaturesConfig).1 .typescript .json (by decide) ".ts"
    (by decide)

/-- C3 counterexample: with no features object, the markdown category
has no adapter after `configure`, although the markdown flag's
documented default is enabled — so `hasAdapter` does not agree with
"enabled taking the documented default when absent". -/
theorem registry_markdown_default_counterexample :
    hasAdapter noFeaturesConfig .markdown = false ∧
    featureFlag noFeaturesConfig .markdown = none ∧
    flagOrDefault noFeaturesConfig .markdown = true := by
  exact ⟨rfl, rfl, rfl⟩

/-- C3 (amended): after `configure(config)`, `hasAdapter` follows the
registration conditions of the source — typescript and json register
unless explicitly `false`, css and markdown only when explicitly `true`,
yaml never.  Hence whenever the four governing flags are explicitly
present (as in any configuration `loadConfig` produces), `hasAdapter`
equals the flag's value for typescript, json, css and markdown — with
no dependence on the category's extension set. -/
theorem registry_flag_coupling (c : BaselayerConfig) (bt bj bs bm : Bool)
    (ht : featureFlag c .typescript = some bt)
    (hj : featureFlag c .json = some bj)
    (hs : featureFlag c .styles = some bs)
    (hm : featureFlag c .markdown = some bm) :
    hasAdapter c .typescript = bt ∧ hasAdapter c .json = bj ∧
    hasAdapter c .css = bs ∧ hasAdapter c .markdown = bm ∧
    hasAdapter c .yaml = false := by
  rcases bt <;> rcases bj <;> rcases bs <;> rcases bm <;>
    simp [hasAdapter, configure, ht, hj, hs, hm]

theorem registry_flag_coupling_witness :
    hasAdapter DEFAULT_CONFIG .typescript = true ∧
    hasAdapter DEFAULT_CONFIG .json = true ∧
    hasAdapter DEFAULT_CONFIG .css = false ∧
    hasAdapter DEFAULT_CONFIG .markdown = true ∧
    hasAdapter DEFAULT_CONFIG .yaml = false :=
  registry_flag_coupling DEFAULT_CONFIG true true false true rfl rfl rfl rfl

/-- C5: zero discovered files short-circuits `format` and `lint` to the
vacuous success (no results, zero totals); and in general the aggregate
success flag is the conjunction (`all`) of the collected tool results'
success flags, vacuously true for an empty collection. -/
theorem vacuous_success :
    (∀ (config : BaselayerConfig) (registry : FileType → Option ToolAdapter)
        (only : Option (List FileType)),
      format [] config registry only =
        { success := true, results := [], totalFiles := 0, totalErrors := 0 } ∧
      lint [] config registry only =
        { success := true, results := [], totalFiles := 0, totalErrors := 0 }) ∧
    (∀ results : List (Option ToolResult),
      (aggregate results).success =
        (aggregate results).results.all (fun r => r.success)) ∧
    (aggregate []).success = true := by
  refine ⟨fun config registry only => ⟨rfl, rfl⟩, fun results => rfl, rfl⟩

/-- C10: `isFeatureEnabled` returns the flag's value when present and
`false` whenever the flag (or the whole features object) is absent —
uniformly for every feature, including those whose documented default
is enabled. -/
theorem feature_enabled_absent_false (c : BaselayerConfig) (f : Feature) :
    (∀ b : Bool, featureFlag c f = some b → isFeatureEnabled c f = b) ∧
    (featureFlag c f = none → isFeatureEnabled c f = false) := by
  constructor
  · intro b hb
    simp [isFeatureEnabled, hb]
  · intro hn
    simp [isFeatureEnabled, hn]

theorem feature_enabled_absent_false_witness :
    isFeatureEnabled noFeaturesConfig .markdown = false :=
  (feature_enabled_absent_false noFeaturesConfig .markdown).2 rfl

lemma mem_aggregate_results (results : List (Option ToolResult)) (r : ToolResult)
    (h : some r ∈ results) : r ∈ (aggregate results).results := by
  unfold aggregate
  exact List.mem_filterMap.mpr ⟨some r, h, rfl⟩

lemma aggregate_success_false (results : List (Option ToolResult)) (r : ToolResult)
    (hr : r ∈ (aggregate results).results) (hf : r.success = false) :
    (aggregate results).success = false := by
  rcases hall : (aggregate results).success with _ | _
  · rfl
  · unfold aggregate at hall hr
    have := List.all_eq_true.mp hall r hr
    rw [hf] at this
    cases this

lemma mem_run_tasks (registry : FileType → Option ToolAdapter)
    (categorized : FileType → List String) (fileTypes : List FileType)
    (t : FileType) (hmem : t ∈ fileTypes) (hreg : (registry t).isSome = true)
    (hne : categorized t ≠ []) :
    t ∈ (fileTypes.filter (fun u => (registry u).isSome)).filter
      (fun u => (categorized u).length > 0) := by
  rw [List.mem_filter, List.mem_filter]
  refine ⟨⟨hmem, hreg⟩, ?_⟩
  simpa using List.length_pos.mpr hne

/-- C4: a thrown adapter exception in one category is converted into a
failed Tool Result naming the adapter (with that category's file count),
other categories' successful results are still collected, and the
aggregate success flag is false — for both the format and the lint
pipelines; no exception escapes either (both are total functions of the
adapter outcomes). -/
theorem adapter_fault_isolation :
    (∀ (registry : FileType → Option ToolAdapter)
        (categorized : FileType → List String) (fileTypes : List FileType)
        (tA tB : FileType) (a b : ToolAdapter) (r : ToolResult) (msg : String),
      tA ∈ fileTypes → registry tA = some a →
      a.formatOp (categorized tA) = .error msg → categorized tA ≠ [] →
      tB ∈ fileTypes → registry tB = some b →
      b.formatOp (categorized tB) = .ok r → r.success = true →
      categorized tB ≠ [] →
      ({ success := false, output := ""
         errors := [a.name ++ " format failed: " ++ msg]
         exitCode := 1, filesProcessed := (categorized tA).length
         tool := a.name } : ToolResult) ∈
          (formatRun registry categorized fileTypes).results ∧
      r ∈ (formatRun registry categorized fileTypes).results ∧
      (formatRun registry categorized fileTypes).success = false) ∧
    (∀ (registry : FileType → Option ToolAdapter)
        (categorized : FileType → List String) (fileTypes : List FileType)
        (tA tB : FileType) (a b : ToolAdapter) (r : ToolResult) (msg : String),
      tA ∈ fileTypes → registry tA = some a →
      a.lintOp (categorized tA) = .error msg → categorized tA ≠ [] →
      tB ∈ fileTypes → registry tB = some b →
      b.lintOp (categorized tB) = .ok r → r.success = true →
      categorized tB ≠ [] →
      ({ success := false, output := ""
         errors := [a.name ++ " lint failed: " ++ msg]
         exitCode := 1, filesProcessed := (categorized tA).length
         tool := a.name } : ToolResult) ∈
          (lintRun registry categorized fileTypes).results ∧
      r ∈ (lintRun registry categorized fileTypes).results ∧
      (lintRun registry categorized fileTypes).success = false) := by
  constructor
  · intro registry categorized fileTypes tA tB a b r msg
    intro hAmem hAreg hAerr hAne hBmem hBreg hBok hBsucc hBne
    have hA : executeToolFormat registry tA (categorized tA) =
        some { success := false, output := ""
               errors := [a.name ++ " format failed: " ++ msg]
               exitCode := 1, filesProcessed := (categorized tA).length
               tool := a.name } := by
      simp [executeToolFormat, hAreg, hAerr]
    have hB : executeToolFormat registry tB (categorized tB) = some r := by
      simp [executeToolFormat, hBreg, hBok]
    have htA := mem_run_tasks registry categorized fileTypes tA hAmem
      (by simp [hAreg]) hAne
    have htB := mem_run_tasks registry categorized fileTypes tB hBmem
      (by simp [hBreg]) hBne
    have hmA : _ ∈ (formatRun registry categorized fileTypes).results :=
      mem_aggregate_results _ _
        (hA ▸ List.mem_map_of_mem (fun u => executeToolFormat registry u (categorized u)) htA)
    have hmB : r ∈ (formatRun registry categorized fileTypes).results :=
      mem_aggregate_results _ _
        (hB ▸ List.mem_map_of_mem (fun u => executeToolFormat registry u (categorized u)) htB)
    exact ⟨hmA, hmB, aggregate_success_false _ _ hmA rfl⟩
  · intro registry categorized fileTypes tA tB a b r msg
    intro hAmem hAreg hAerr hAne hBmem hBreg hBok hBsucc hBne
    have hA : executeToolLint registry tA (categorized tA) =
        some { success := false, output := ""
               errors := [a.name ++ " lint failed: " ++ msg]
               exitCode := 1, filesProcessed := (categorized tA).length
               tool := a.name } := by
      simp [executeToolLint, hAreg, hAerr]
    have hB : executeToolLint registry tB (categorized tB) = some r := by
      simp [executeToolLint, hBreg, hBok]
    have htA := mem_run_tasks registry categorized fileTypes tA hAmem
      (by simp [hAreg]) hAne
    have htB := mem_run_tasks registry categorized fileTypes tB hBmem
      (by simp [hBreg]) hBne
    have hmA : _ ∈ (lintRun registry categorized fileTypes).results :=
      mem_aggregate_results _ _
        (hA ▸ List.mem_map_of_mem (fun u => executeToolLint registry u (categorized u)) htA)
    have hmB : r ∈ (lintRun registry categorized fileTypes).results :=
      mem_aggregate_results _ _
        (hB ▸ List.mem_map_of_mem (fun u => executeToolLint registry u (categorized u)) htB)
    exact ⟨hmA, hmB, aggregate_success_false _ _ hmA rfl⟩

theorem adapter_fault_isolation_witness :
    ({ success := false, output := ""
       errors := ["ultracite format failed: boom"]
       exitCode := 1, filesProcessed := 1
       tool := "ultracite" } : ToolResult) ∈
        (formatRun mixedRegistry mixedCategorized allFileTypes).results ∧
    okResult ∈ (formatRun mixedRegistry mixedCategorized allFileTypes).results ∧
    (formatRun mixedRegistry mixedCategorized allFileTypes).success = false :=
  adapter_fault_isolation.1 mixedRegistry mixedCategorized allFileTypes
    .typescript .json crashingAdapter okAdapter okResult "boom"
    (by decide) rfl rfl (by simp [mixedCategorized]) (by decide) rfl rfl rfl
    (by simp [mixedCategorized])

/-- C6: classification is a partial function into categories: a file is
never in two different categories' lists; membership in a category's
list means the file was in the input and that category is the first, in
the fixed iteration order, whose extension set contains the file's
extension; and a file whose extension is in no category's set is in no
list. -/
theorem first_match_classification (files : List String)
    (config : BaselayerConfig) (f : String) :
    (∀ t₁ t₂ : FileType,
      f ∈ categorizeFilesWithConfig files config t₁ →
      f ∈ categorizeFilesWithConfig files config t₂ → t₁ = t₂) ∧
    (∀ t : FileType, f ∈ categorizeFilesWithConfig files config t →
      f ∈ files ∧ firstMatch (getFileHandlers config) (extname f) = some t) ∧
    ((∀ t : FileType, extname f ∉ (getFileHandlers config).get t) →
      ∀ t : FileType, f ∉ categorizeFilesWithConfig files config t) := by
  refine ⟨?_, ?_, ?_⟩
  · intro t₁ t₂ h1 h2
    have e1 := (mem_categorizeFiles files (getFileHandlers config) t₁ f).mp h1
    have e2 := (mem_categorizeFiles files (getFileHandlers config) t₂ f).mp h2
    have := e1.2.symm.trans e2.2
    exact Option.some_injective _ this
  · intro t ht
    exact (mem_categorizeFiles files (getFileHandlers config) t f).mp ht
  · intro hnone t hmem
    have e := (mem_categorizeFiles files (getFileHandlers config) t f).mp hmem
    have hfind := e.2
    unfold firstMatch at hfind
    have := List.find?_some hfind
    have hmemt : extname f ∈ (getFileHandlers config).get t := by
      simpa [List.contains_iff_exists_mem_beq, beq_iff_eq] using this
    exact hnone t hmemt

theorem first_match_classification_witness :
    "x.zzz" ∉ categorizeFilesWithConfig ["x.zzz"] noFeaturesConfig .json :=
  (first_match_classification ["x.zzz"] noFeaturesConfig "x.zzz").2.2
    (by decide) .json

/-- C9: in staged-only mode, a failed version-control query — a thrown
error, or any stderr output from the git command — yields the empty
file list for every pattern list; the model is a total function, the
`try`/`catch` in `getStagedFiles` having absorbed every failure path. -/
theorem staged_failure_empty :
    (∀ (patterns : List String) (matchPat : String → String → Bool)
        (globExpand : String → List String) (e : String),
      findFiles patterns true matchPat (.error e) globExpand = []) ∧
    (∀ (patterns : List String) (matchPat : String → String → Bool)
        (globExpand : String → List String) (stdout stderr : String),
      stderr ≠ "" →
      findFiles patterns true matchPat (.ok (stdout, stderr)) globExpand = []) := by
  constructor
  · intro patterns matchPat globExpand e
    unfold findFiles getStagedFiles
    rcases patterns <;> simp
  · intro patterns matchPat globExpand stdout stderr hne
    unfold findFiles getStagedFiles
    rcases patterns <;> simp [hne]

theorem staged_failure_empty_witness :
    findFiles ["**/*.ts"] true (fun _ _ => true)
      (.ok ("", "fatal: not a git repository")) (fun _ => []) = [] :=
  staged_failure_empty.2 ["**/*.ts"] (fun _ _ => true) (fun _ => [])
    "" "fatal: not a git repository" (by decide)

/-- C7: the candidate loop of `loadConfig` — an absent candidate file is
silently skipped; a found candidate whose parse/validation fails ends
the load with a `CONFIG_INVALID` failure (no fallback to later
candidates or defaults); a found candidate that parses and validates
ends the load with the merged configuration; and if every candidate is
absent, the load succeeds with the compiled-in defaults. -/
theorem config_load_skip_vs_invalid :
    (∀ (fs : String → Option String) (importJs : String → Except String Json),
      (∀ p ∈ configPaths, fs p = none) →
      loadConfig fs importJs = .ok DEFAULT_CONFIG) ∧
    (∀ (fs : String → Option String) (importJs : String → Except String Json)
        (p : String) (rest : List String),
      fs p = none →
      loadConfigAux fs importJs (p :: rest) = loadConfigAux fs importJs rest) ∧
    (∀ (fs : String → Option String) (importJs : String → Except String Json)
        (p : String) (rest : List String) (content e : String),
      fs p = some content → loadOne importJs p content = .error e →
      loadConfigAux fs importJs (p :: rest) =
        .error (makeError "CONFIG_INVALID"
          ("Failed to load config from " ++ p ++ ": " ++ e))) ∧
    (∀ (fs : String → Option String) (importJs : String → Except String Json)
        (p : String) (rest : List String) (content : String)
        (merged : BaselayerConfig),
      fs p = some content → loadOne importJs p content = .ok merged →
      loadConfigAux fs importJs (p :: rest) = .ok merged) := by
  refine ⟨?_, ?_, ?_, ?_⟩
  · intro fs importJs habsent
    have hgen : ∀ paths : List String, (∀ p ∈ paths, fs p = none) →
        loadConfigAux fs importJs paths = .ok DEFAULT_CONFIG := by
      intro paths
      induction paths with
      | nil => intro _; rfl
      | cons p rest ih =>
        intro h
        have hp : fs p = none := h p (List.mem_cons_self p rest)
        simp only [loadConfigAux, hp]
        exact ih (fun q hq => h q (List.mem_cons_of_mem p hq))
    exact hgen configPaths habsent
  · intro fs importJs p rest hp
    simp only [loadConfigAux, hp]
  · intro fs importJs p rest content e hp hload
    simp only [loadConfigAux, hp, hload]
  · intro fs importJs p rest content merged hp hload
    simp only [loadConfigAux, hp, hload]

theorem config_load_skip_vs_invalid_witness :
    loadConfig (fun _ => none) importJs0 = .ok DEFAULT_CONFIG ∧
    loadConfigAux fsBad importJs0 configPaths =
      .error (makeError "CONFIG_INVALID"
        ("Failed to load config from baselayer.jsonc: " ++
          "expected string key in object")) :=
  ⟨config_load_skip_vs_invalid.1 (fun _ => none) importJs0 (fun _ _ => rfl),
   config_load_skip_vs_invalid.2.2.1 fsBad importJs0 "baselayer.jsonc"
     ["baselayer.json", ".baselayerrc.jsonc", ".baselayerrc.json",
      "outfitter.config.js", "outfitter.config.mjs"]
     "\x7bnope" "expected string key in object" rfl rfl⟩

/-- C8 counterexample: the document `{"url":"http://x"}` is valid JSON
containing no comments and no trailing commas — it is its own
comment-free equivalent, and a standard JSON parse accepts it — yet
`parseJsonc` corrupts it, because the line-comment regex deletes from
the `//` inside the string value to the end of the line.  Likewise a
block comment whose body contains `//` (for example a URL) is mangled
by the line-comment pass before the block-comment pass can remove it,
so `parseJsonc` fails although the comment-free equivalent `{"a":1} `
is valid JSON. -/
theorem jsonc_string_hazard_counterexample :
    jsonParse "\x7b\"url\":\"http://x\"\x7d" =
      .ok (.obj [("url", .str "http://x")]) ∧
    parseJsonc "\x7b\"url\":\"http://x\"\x7d" = .error "unterminated string" ∧
    jsonParse "\x7b\"a\":1\x7d" = .ok (.obj [("a", .num "1")]) ∧
    parseJsonc "\x7b\"a\":1\x7d /* see http://x */" =
      .error "unexpected non-whitespace character after JSON data" :=
  ⟨rfl, rfl, rfl, rfl⟩

/-- C8 (amended): `parseJsonc` is a standard JSON parse of the text
produced by three string-level removal passes that do not respect
string-literal boundaries, so the claimed equivalence cannot cover
string values containing comment-like sequences.  What holds: (1) on
any document in which `//`, `/*` and comma-before-closing-bracket
sequences do not occur at all, `parseJsonc` agrees with a standard JSON
parse of the document itself (which is its own comment-free,
trailing-comma-free equivalent); (2) a `//` line comment whose body
contains no line terminator and whose preceding text contains no `//`
and does not end in `/` is stripped without altering the parse
result. -/
theorem jsonc_tolerant_parse :
    (∀ s : String, hazardFree s.data = true → parseJsonc s = jsonParse s) ∧
    (∀ code comment rest : List Char,
      hasDoubleSlash (code ++ ['/']) = false →
      (∀ c ∈ comment, isLineTerm c = false) →
      parseJsonc (String.mk (code ++ ('/' :: '/' :: (comment ++ ('\n' :: rest))))) =
        parseJsonc (String.mk (code ++ ('\n' :: rest)))) := by
  constructor
  · intro s h
    unfold parseJsonc
    rw [show (String.mk s.data).data = s.data from rfl, cleanJsonc_id s.data h,
      mk_data]
  · intro code comment rest h1 h2
    have hslc : stripLineComments (code ++ ('/' :: '/' :: (comment ++ ('\n' :: rest)))) =
        stripLineComments (code ++ ('\n' :: rest)) := by
      unfold stripLineComments
      have step1 := stripLineCommentsAux_false_append code
        ('/' :: '/' :: (comment ++ ('\n' :: rest))) (by simpa using h1)
      have step4 := stripLineCommentsAux_false_append code ('\n' :: rest)
        (by simpa using hasDoubleSlash_append_single code '\n' h1)
      rw [step1, step4]
      have step2 : stripLineCommentsAux false ('/' :: '/' :: (comment ++ ('\n' :: rest))) =
          stripLineCommentsAux true (comment ++ ('\n' :: rest)) := rfl
      rw [step2, stripLineCommentsAux_true_drop comment ('\n' :: rest) h2]
      simp [stripLineCommentsAux, isLineTerm]
    have hs : cleanJsonc (code ++ ('/' :: '/' :: (comment ++ ('\n' :: rest)))) =
        cleanJsonc (code ++ ('\n' :: rest)) := by
      unfold cleanJsonc
      rw [hslc]
    show jsonParse (String.mk (cleanJsonc (code ++ ('/' :: '/' :: (comment ++ ('\n' :: rest)))))) =
        jsonParse (String.mk (cleanJsonc (code ++ ('\n' :: rest))))
    rw [hs]

theorem jsonc_tolerant_parse_witness :
    parseJsonc "\x7b\"a\": [1, 2]\x7d" = jsonParse "\x7b\"a\": [1, 2]\x7d" ∧
    parseJsonc (String.mk ("\x7b\"a\": 1\x7d ".data ++
        ('/' :: '/' :: (" note".data ++ ('\n' :: []))))) =
      parseJsonc (String.mk ("\x7b\"a\": 1\x7d ".data ++ ('\n' :: []))) :=
  ⟨jsonc_tolerant_parse.1 "\x7b\"a\": [1, 2]\x7d" rfl,
   jsonc_tolerant_parse.2 "\x7b\"a\": 1\x7d ".data " note".data [] rfl
     (by decide)⟩

end Baselayer
